import Mathlib

/-!
Verification of the Core-Dimension Broadcast-Apply Engine specification.

The repository is a set of tutorial notebooks demonstrating `apply_ufunc`,
core-dimension semantics and Numba vectorization.  The engine itself (the
generalized-ufunc dimension-alignment algorithm) lives in the external
dependency, not in the repository; the spec describes it as the single
specified component.  Accordingly the engine below is modelled from the
spec's words, while the notebook kernel `g` is embedded from the source.
-/

namespace CoreDimEngine

/-- Modelled from the spec: a bare n-dimensional numeric buffer (the kind of
unlabeled array a kernel receives), stored row-major with an explicit shape.
The engine `apply_ufunc` is not implemented in this repository, so its data
model is taken from spec section 3. -/
structure NDArray where
  shape : List Nat
  data : List Int
deriving DecidableEq, Repr

instance : Inhabited NDArray := ⟨⟨[], []⟩⟩

/-- Modelled from the spec: a Labeled Array is an n-dimensional numeric buffer
plus an ordered sequence of dimension names, one per axis (spec section 3). -/
structure LabeledArray where
  dims : List String
  arr : NDArray
deriving DecidableEq, Repr

instance : Inhabited LabeledArray := ⟨⟨[], ⟨[], []⟩⟩⟩

/-- Rank of a bare array: the number of axes. -/
def NDArray.rank (a : NDArray) : Nat := a.shape.length

/-- Size of the axis named `d` in a labeled array; a name absent from the
array is treated as a broadcast stretch of size 1 (spec section 4.2). -/
def LabeledArray.dimSize (la : LabeledArray) (d : String) : Nat :=
  la.arr.shape.getD (List.indexOf d la.dims) 1

/-- Row-major conversion of a flat offset to a multi-index for `shape`. -/
def toMulti : List Nat → Nat → List Nat
  | [], _ => []
  | _ :: rest, k => (k / rest.prod) :: toMulti rest (k % rest.prod)

/-- Row-major conversion of a multi-index for `shape` to a flat offset. -/
def fromMulti : List Nat → List Nat → Nat
  | _ :: rest, i :: is => i * rest.prod + fromMulti rest is
  | _, _ => 0

/-- Modelled from the spec: transposition phase (spec section 4.2).  Produce a
bare array whose axes follow `order`; a name absent from the input is a
virtual size-1 insertion.  Element at a multi-index of the new layout is read
from the original buffer at the correspondingly permuted multi-index. -/
def transposeTo (la : LabeledArray) (order : List String) : NDArray :=
  let sh := order.map la.dimSize
  { shape := sh
    data := (List.range sh.prod).map (fun k =>
      let ni := toMulti sh k
      let oi := la.dims.map (fun d => ni.getD (List.indexOf d order) 0)
      la.arr.data.getD (fromMulti la.arr.shape oi) 0) }

/-- First-seen deduplication: keeps the first occurrence of every element, in
order of first appearance. -/
def firstSeen : List String → List String
  | [] => []
  | d :: rest => d :: (firstSeen rest).filter (fun x => x ≠ d)

/-- The loop (non-core) dimensions of one input, in that input's axis order. -/
def loopDimsOf (la : LabeledArray) (core : List String) : List String :=
  la.dims.filter (fun d => d ∉ core)

/-- Modelled from the spec: the broadcast-frame dimension list — the union of
the inputs' loop dimensions in first-seen order across inputs (spec
section 4.1). -/
def loopFrame (inputs : List LabeledArray) (cores : List (List String)) :
    List String :=
  firstSeen ((inputs.zip cores).flatMap (fun p => loopDimsOf p.1 p.2))

/-- Modelled from the spec: error taxonomy of the engine (spec section 7). -/
inductive ApplyError where
  | MissingDimension : String → ApplyError
  | SizeMismatch : String → ApplyError
  | BroadcastError : String → ApplyError
  | UnexpectedOutputRank : List String → Nat → ApplyError
  | UnexpectedSizeChange : String → Nat → Nat → ApplyError
deriving DecidableEq, Repr

/-- Modelled from the spec: every named core dimension must exist in its
input (spec section 4.1); returns the first offending dimension name. -/
def checkMissing (inputs : List LabeledArray) (cores : List (List String)) :
    Option String :=
  (inputs.zip cores).findSome? (fun p =>
    p.2.find? (fun d => ! p.1.dims.contains d))

/-- All (core dimension name, size in its input) pairs of an invocation. -/
def coreSizePairs (inputs : List LabeledArray) (cores : List (List String)) :
    List (String × Nat) :=
  (inputs.zip cores).flatMap (fun p => p.2.map (fun d => (d, p.1.dimSize d)))

/-- Modelled from the spec: a core dimension name shared by two inputs must
have equal size in both, unless listed in the excluded set (spec
section 4.1); returns the first offending dimension name. -/
def checkCoreSizes (inputs : List LabeledArray) (cores : List (List String))
    (excl : List String) : Option String :=
  let pairs := coreSizePairs inputs cores
  pairs.findSome? (fun q =>
    if !excl.contains q.1 && pairs.any (fun r => r.1 == q.1 && r.2 != q.2)
    then some q.1 else none)

/-- Modelled from the spec: broadcasting reconciliation of two sizes — size 1
matches any size, equal sizes match, any other pair is invalid (spec
section 4.1). -/
def reconcile2 (a s : Nat) : Option Nat :=
  if a = 1 then some s else if s = 1 ∨ s = a then some a else none

/-- Fold of `reconcile2` over all sizes observed for one loop dimension. -/
def reconcileAll (sizes : List Nat) : Option Nat :=
  sizes.foldl (fun acc s => acc.bind (fun a => reconcile2 a s)) (some 1)

/-- Sizes contributed to a loop dimension `d` by the inputs that carry it as
a non-core dimension. -/
def loopSizesFor (inputs : List LabeledArray) (cores : List (List String))
    (d : String) : List Nat :=
  (inputs.zip cores).filterMap (fun p =>
    if p.1.dims.contains d && ! p.2.contains d
    then some (p.1.dimSize d) else none)

/-- Reconciled broadcast-frame size of loop dimension `d`, if compatible. -/
def frameSize? (inputs : List LabeledArray) (cores : List (List String))
    (d : String) : Option Nat :=
  reconcileAll (loopSizesFor inputs cores d)

/-- Modelled from the spec: loop-dimension sizes must reconcile under
broadcasting (spec section 4.1); returns a dimension that fails to. -/
def checkBroadcast (inputs : List LabeledArray)
    (cores : List (List String)) : Option String :=
  (loopFrame inputs cores).find? (fun d =>
    (frameSize? inputs cores d).isNone)

/-- Size that dimension `d` had as a core dimension on some input. -/
def coreSize? (inputs : List LabeledArray) (cores : List (List String))
    (d : String) : Option Nat :=
  (coreSizePairs inputs cores).findSome? (fun q =>
    if q.1 == d then some q.2 else none)

/-- The size dimension `d` is known to have before the kernel runs: the
broadcast-frame size for a loop dimension, the input core size for a core
dimension, nothing for a freshly introduced output dimension. -/
def knownSize? (inputs : List LabeledArray) (cores : List (List String))
    (d : String) : Option Nat :=
  if (loopFrame inputs cores).contains d then frameSize? inputs cores d
  else coreSize? inputs cores d

/-- Modelled from the spec: post-call size validation (spec section 4.3) —
a dimension not declared size-mutable whose size changed during the call is
reported as a (dimension, expected size, observed size) triple. -/
def checkSizeChange (inputs : List LabeledArray)
    (cores : List (List String)) (excl : List String)
    (expDims : List String) (resShape : List Nat) :
    Option (String × Nat × Nat) :=
  (List.range expDims.length).findSome? (fun j =>
    let d := expDims.getD j ""
    if excl.contains d then none
    else
      (knownSize? inputs cores d).bind (fun s0 =>
        if resShape.getD j 0 == s0 then none
        else some (d, s0, resShape.getD j 0)))

/-- Modelled from the spec: the bare arrays handed to the kernel — each input
transposed so the broadcast-frame loop dimensions lead and that input's core
dimensions trail in the caller-requested order (spec section 4.2). -/
def kernelArgs (inputs : List LabeledArray) (cores : List (List String)) :
    List NDArray :=
  let lf := loopFrame inputs cores
  (inputs.zip cores).map (fun p => transposeTo p.1 (lf ++ p.2))

/-- Modelled from the spec: the Core-Dimension Broadcast-Apply Engine, in the
vectorized mode demonstrated by the notebooks (the kernel is called exactly
once on the fully transposed inputs).  Phases follow spec sections 4.1-4.3:
alignment and validation, transposition, apply, post-call validation,
reconstruction of a labeled result.  All validation errors are raised before
the kernel's output is accepted and no partial result is returned on
failure. -/
def apply (kernel : List NDArray → NDArray) (inputs : List LabeledArray)
    (input_core_dims : List (List String))
    (output_core_dims : List String)
    (exclude_dims : List String) : Except ApplyError LabeledArray :=
  match checkMissing inputs input_core_dims with
  | some d => .error (.MissingDimension d)
  | none =>
    match checkCoreSizes inputs input_core_dims exclude_dims with
    | some d => .error (.SizeMismatch d)
    | none =>
      match checkBroadcast inputs input_core_dims with
      | some d => .error (.BroadcastError d)
      | none =>
        let lf := loopFrame inputs input_core_dims
        let res := kernel (kernelArgs inputs input_core_dims)
        let expDims := lf ++ output_core_dims
        if res.rank ≠ expDims.length then
          .error (.UnexpectedOutputRank expDims res.rank)
        else
          match checkSizeChange inputs input_core_dims exclude_dims expDims
              res.shape with
          | some t => .error (.UnexpectedSizeChange t.1 t.2.1 t.2.2)
          | none => .ok ⟨expDims, res⟩

/-- Kernel returning its first argument unchanged (an identity kernel used to
exercise the engine on concrete inputs). -/
def idKernel (args : List NDArray) : NDArray := args.getD 0 default

/-- Kernel ignoring its inputs and returning a rank-0 scalar array. -/
def scalarKernel (_ : List NDArray) : NDArray := ⟨[], [0]⟩

/-- Summation over the last axis of a row-major array: the model of a NumPy
reduction invoked with axis equal to -1, as in the core-dimensions
notebook. -/
def reduceLast (a : NDArray) : NDArray :=
  let m := a.shape.getLastD 1
  { shape := a.shape.dropLast
    data := (List.range a.shape.dropLast.prod).map (fun k =>
      ((List.range m).map (fun j => a.data.getD (k * m + j) 0)).sum) }

/-- Kernel applying the last-axis reduction to its first argument. -/
def reduceLastKernel (args : List NDArray) : NDArray :=
  reduceLast (args.getD 0 default)

/-- Kernel that halves the length of its (1-D) first argument, used to
exercise the size-change validation. -/
def halveKernel (args : List NDArray) : NDArray :=
  let a := args.getD 0 default
  ⟨[a.shape.getD 0 0 / 2], a.data.take (a.shape.getD 0 0 / 2)⟩

/-- Signed 64-bit wraparound: the value of an integer reduced modulo 2^64
into the signed range from -2^63 (written -9223372036854775808) up to
2^63 - 1.  The notebook kernel is compiled for the numba int64 element
type, whose arithmetic wraps silently on overflow. -/
def wrap64 (a : Int) : Int :=
  (a + 9223372036854775808) % 18446744073709551616 - 9223372036854775808

/-- The notebook's `guvectorize` kernel `g`, embedded from the source: given
a 1-D vector `x` and a scalar `y` it writes `res[i] = x[i] + y` for every
`i` below `x`'s length.  The declared element type is int64, so each sum is
the 64-bit wraparound of the mathematical sum. -/
def g (x : List Int) (y : Int) : List Int :=
  (List.range x.length).map (fun i => wrap64 (x.getD i 0 + y))

/-- The kernel `g` lifted to the engine's calling convention: first argument
is the vector, second the scalar. -/
def gKernel (args : List NDArray) : NDArray :=
  let x := args.getD 0 default
  let y := (args.getD 1 default).data.getD 0 0
  { shape := x.shape, data := g x.data y }

/-- A sample 2-by-3 labeled array with dimensions `y` and `x`. -/
def sampleYX : LabeledArray := ⟨["y", "x"], ⟨[2, 3], [1, 2, 3, 4, 5, 6]⟩⟩

/-- A sample length-4 labeled vector with single dimension `x`. -/
def sampleX4 : LabeledArray := ⟨["x"], ⟨[4], [1, 2, 3, 4]⟩⟩

/-- Renaming of the dimension labels of a labeled array; the numeric buffer
is untouched. -/
def renameLA (ρ : String → String) (la : LabeledArray) : LabeledArray :=
  ⟨la.dims.map ρ, la.arr⟩

/-- Modelled from the spec: `get_axis_num`, the labeled-array method the
core-dimensions notebook demonstrates (`ds.air.get_axis_num("time")`); it
is provided by the external container library, not by this repository.  It
returns the position of a dimension name in the array's ordered dimension
sequence. -/
def get_axis_num (la : LabeledArray) (d : String) : Nat :=
  List.indexOf d la.dims

/-- Summation over axis `ax` of a row-major array (the model of a NumPy
reduction with an explicit positional `axis` argument). -/
def reduceAxis (a : NDArray) (ax : Nat) : NDArray :=
  let sh := a.shape.eraseIdx ax
  let m := a.shape.getD ax 1
  { shape := sh
    data := (List.range sh.prod).map (fun k =>
      ((List.range m).map (fun j =>
        a.data.getD (fromMulti a.shape (List.insertIdx ax j (toMulti sh k))) 0)).sum) }

/-- Reduction of a labeled array along the dimension named `d`: the name is
resolved to a positional axis with `get_axis_num` and the raw buffer is
reduced along that axis. -/
def reduceDim (la : LabeledArray) (d : String) : LabeledArray :=
  ⟨la.dims.eraseIdx (get_axis_num la d), reduceAxis la.arr (get_axis_num la d)⟩

end CoreDimEngine

namespace CoreDimEngine

/-- The shape attached to a transposed input lists the requested dimensions'
sizes in the requested order. -/
theorem transposeTo_shape (la : LabeledArray) (order : List String) :
    (transposeTo la order).shape = order.map la.dimSize := rfl

/-- Dropping the image of the left part of an appended list from its map
leaves the map of the right part. -/
theorem map_append_drop {α β : Type} (f : α → β) (l r : List α) :
    ((l ++ r).map f).drop l.length = r.map f := by
  rw [List.map_append]
  have h : l.length = (l.map f).length := (List.length_map l f).symm
  rw [h, List.drop_left]

/-- The `i`-th bare array handed to the kernel is the `i`-th input transposed
to the loop-frame-then-core axis order. -/
theorem kernelArgs_getD (inputs : List LabeledArray)
    (cores : List (List String)) (i : Nat)
    (h1 : i < inputs.length) (h2 : i < cores.length) :
    (kernelArgs inputs cores).getD i default
      = transposeTo (inputs.getD i default)
          (loopFrame inputs cores ++ cores.getD i []) := by
  unfold kernelArgs
  generalize loopFrame inputs cores = lf
  induction inputs generalizing cores i with
  | nil => simp at h1
  | cons a as ih =>
    cases cores with
    | nil => simp at h2
    | cons c cs =>
      cases i with
      | zero => rfl
      | succ n =>
        simp only [List.zip_cons_cons, List.map_cons, List.getD_cons_succ]
        exact ih cs n (by simpa using h1) (by simpa using h2)

/-- Inversion principle for a successful engine invocation: success happens
exactly when every validation stage passes, and then the output carries the
loop-frame dimensions followed by the declared output core dimensions, with
the kernel's bare output as its buffer. -/
theorem apply_ok_iff (kernel : List NDArray → NDArray)
    (inputs : List LabeledArray) (cores : List (List String))
    (ocd excl : List String) (out : LabeledArray) :
    apply kernel inputs cores ocd excl = .ok out ↔
      checkMissing inputs cores = none ∧
      checkCoreSizes inputs cores excl = none ∧
      checkBroadcast inputs cores = none ∧
      (kernel (kernelArgs inputs cores)).rank
        = (loopFrame inputs cores).length + ocd.length ∧
      checkSizeChange inputs cores excl (loopFrame inputs cores ++ ocd)
        (kernel (kernelArgs inputs cores)).shape = none ∧
      out = ⟨loopFrame inputs cores ++ ocd,
             kernel (kernelArgs inputs cores)⟩ := by
  unfold apply
  cases h1 : checkMissing inputs cores with
  | some d => simp
  | none =>
    cases h2 : checkCoreSizes inputs cores excl with
    | some d => simp
    | none =>
      cases h3 : checkBroadcast inputs cores with
      | some d => simp
      | none =>
        simp only []
        split_ifs with hr
        · simp only [List.length_append] at hr
          simp [hr]
        · simp only [List.length_append, not_not] at hr
          cases h5 : checkSizeChange inputs cores excl
              (loopFrame inputs cores ++ ocd)
              (kernel (kernelArgs inputs cores)).shape with
          | some t => simp [hr]
          | none =>
            simp [hr, eq_comm]

/-- C1: for every valid invocation of apply (one that succeeds, so all named
core dimensions are present and shared core-dimension sizes match), each
input passed to the kernel is that input transposed to an axis order whose
trailing axes are exactly its declared core dimensions in the caller's
order (the leading axes being the broadcast-frame loop dimensions), and the
engine's output dimension order is the loop frame followed by exactly the
declared output core dimensions — regardless of the inputs' original axis
order, over which the statement is universally quantified. -/
theorem c1_core_dims_trailing (kernel : List NDArray → NDArray)
    (inputs : List LabeledArray) (cores : List (List String))
    (ocd excl : List String) (out : LabeledArray)
    (hok : apply kernel inputs cores ocd excl = .ok out) :
    (∀ i, i < inputs.length → i < cores.length →
      (kernelArgs inputs cores).getD i default
        = transposeTo (inputs.getD i default)
            (loopFrame inputs cores ++ cores.getD i []) ∧
      ((kernelArgs inputs cores).getD i default).shape.drop
          (loopFrame inputs cores).length
        = (cores.getD i []).map (inputs.getD i default).dimSize) ∧
    out.dims = loopFrame inputs cores ++ ocd ∧
    out.dims.drop (loopFrame inputs cores).length = ocd := by
  have hout := ((apply_ok_iff kernel inputs cores ocd excl out).mp hok).2.2.2.2.2
  refine ⟨?_, ?_, ?_⟩
  · intro i h1 h2
    refine ⟨kernelArgs_getD inputs cores i h1 h2, ?_⟩
    rw [kernelArgs_getD inputs cores i h1 h2, transposeTo_shape,
      map_append_drop]
  · rw [hout]
  · rw [hout]
    exact List.drop_left _ _

/-- C1 witness: the concrete 2-by-3 array with dimensions `(y, x)`, core
dimension `x` and output core dimension `x` under the identity kernel. -/
theorem c1_core_dims_trailing_witness :
    (∀ i, i < ([sampleYX] : List LabeledArray).length → i < [["x"]].length →
      (kernelArgs [sampleYX] [["x"]]).getD i default
        = transposeTo (([sampleYX] : List LabeledArray).getD i default)
            (loopFrame [sampleYX] [["x"]] ++ [["x"]].getD i []) ∧
      ((kernelArgs [sampleYX] [["x"]]).getD i default).shape.drop
          (loopFrame [sampleYX] [["x"]]).length
        = ([["x"]].getD i []).map
            (([sampleYX] : List LabeledArray).getD i default).dimSize) ∧
    (⟨["y", "x"], ⟨[2, 3], [1, 2, 3, 4, 5, 6]⟩⟩ : LabeledArray).dims
      = loopFrame [sampleYX] [["x"]] ++ ["x"] ∧
    (⟨["y", "x"], ⟨[2, 3], [1, 2, 3, 4, 5, 6]⟩⟩ : LabeledArray).dims.drop
        (loopFrame [sampleYX] [["x"]]).length = ["x"] :=
  c1_core_dims_trailing idKernel [sampleYX] [["x"]] ["x"] []
    ⟨["y", "x"], ⟨[2, 3], [1, 2, 3, 4, 5, 6]⟩⟩ rfl

/-- C2: whenever the pre-kernel validation stages pass but the kernel's
result has a rank different from the loop rank plus the number of declared
output core dimensions, the call fails with UnexpectedOutputRank naming the
expected dimension names and the observed rank, and no output is
produced. -/
theorem c2_unexpected_output_rank (kernel : List NDArray → NDArray)
    (inputs : List LabeledArray) (cores : List (List String))
    (ocd excl : List String)
    (h1 : checkMissing inputs cores = none)
    (h2 : checkCoreSizes inputs cores excl = none)
    (h3 : checkBroadcast inputs cores = none)
    (hr : (kernel (kernelArgs inputs cores)).rank
        ≠ (loopFrame inputs cores).length + ocd.length) :
    apply kernel inputs cores ocd excl
      = .error (.UnexpectedOutputRank (loopFrame inputs cores ++ ocd)
          (kernel (kernelArgs inputs cores)).rank) ∧
    ∀ out, apply kernel inputs cores ocd excl ≠ .ok out := by
  have hr' : (kernel (kernelArgs inputs cores)).rank
      ≠ (loopFrame inputs cores ++ ocd).length := by
    simpa [List.length_append] using hr
  have hmain : apply kernel inputs cores ocd excl
      = .error (.UnexpectedOutputRank (loopFrame inputs cores ++ ocd)
          (kernel (kernelArgs inputs cores)).rank) := by
    unfold apply
    simp only [h1, h2, h3]
    rw [if_pos hr']
  exact ⟨hmain, fun out h => by rw [hmain] at h; exact Except.noConfusion h⟩

/-- C2 witness: a kernel that always returns a rank-0 array, invoked with
one declared output core dimension, fails with the expected dimension list
and the observed rank 0. -/
theorem c2_unexpected_output_rank_witness :
    (apply scalarKernel [⟨["x"], ⟨[3], [0, 0, 0]⟩⟩] [["x"]] ["x"] []
      = .error (.UnexpectedOutputRank
          (loopFrame [⟨["x"], ⟨[3], [0, 0, 0]⟩⟩] [["x"]] ++ ["x"])
          (scalarKernel
            (kernelArgs [⟨["x"], ⟨[3], [0, 0, 0]⟩⟩] [["x"]])).rank)) ∧
    ∀ out, apply scalarKernel [⟨["x"], ⟨[3], [0, 0, 0]⟩⟩] [["x"]] ["x"] []
      ≠ .ok out :=
  c2_unexpected_output_rank scalarKernel [⟨["x"], ⟨[3], [0, 0, 0]⟩⟩]
    [["x"]] ["x"] [] rfl rfl rfl (by decide)

/-- Bridge between the Boolean membership test the engine runs and the
propositional membership the statements use. -/
theorem contains_iff_mem (l : List String) (a : String) :
    l.contains a = true ↔ a ∈ l := by
  simp [List.contains_iff_exists_mem_beq, beq_iff_eq]

/-- Characterization of a passing post-call size validation: it reports
nothing exactly when every non-excluded result dimension with a known prior
size kept that size. -/
theorem checkSizeChange_eq_none_iff (inputs : List LabeledArray)
    (cores : List (List String)) (excl : List String)
    (expDims : List String) (resShape : List Nat) :
    checkSizeChange inputs cores excl expDims resShape = none ↔
      ∀ j, j < expDims.length → expDims.getD j "" ∉ excl →
        ∀ s0, knownSize? inputs cores (expDims.getD j "") = some s0 →
          resShape.getD j 0 = s0 := by
  unfold checkSizeChange
  rw [List.findSome?_eq_none_iff]
  constructor
  · intro h j hj hne s0 hs0
    have hjr := h j (List.mem_range.mpr hj)
    simp only [] at hjr
    have hcb : ¬ (excl.contains (expDims.getD j "") = true) := fun hcc =>
      hne ((contains_iff_mem excl _).mp hcc)
    rw [if_neg hcb, hs0, Option.some_bind] at hjr
    by_contra hcon
    have hb : ¬ ((resShape.getD j 0 == s0) = true) := by
      simp only [beq_iff_eq]
      exact hcon
    rw [if_neg hb] at hjr
    exact Option.noConfusion hjr
  · intro h j hj
    simp only []
    by_cases hc : excl.contains (expDims.getD j "") = true
    · rw [if_pos hc]
    · rw [if_neg hc]
      cases hk : knownSize? inputs cores (expDims.getD j "") with
      | none => rw [Option.none_bind]
      | some s0 =>
        have hne : expDims.getD j "" ∉ excl := fun hmem =>
          hc ((contains_iff_mem excl _).mpr hmem)
        have heq := h j (List.mem_range.mp hj) hne s0 hk
        have hb : (resShape.getD j 0 == s0) = true := by
          simp only [beq_iff_eq]
          exact heq
        rw [Option.some_bind, if_pos hb]

/-- Any triple reported by the size validation names a dimension that was
not excluded. -/
theorem checkSizeChange_some_not_excl (inputs : List LabeledArray)
    (cores : List (List String)) (excl : List String)
    (expDims : List String) (resShape : List Nat)
    (d : String) (a b : Nat)
    (h : checkSizeChange inputs cores excl expDims resShape = some (d, a, b)) :
    d ∉ excl := by
  unfold checkSizeChange at h
  obtain ⟨j, _, hj⟩ := List.exists_of_findSome?_eq_some h
  simp only [] at hj
  by_cases hc : excl.contains (expDims.getD j "") = true
  · rw [if_pos hc] at hj
    exact Option.noConfusion hj
  · rw [if_neg hc] at hj
    cases hk : knownSize? inputs cores (expDims.getD j "") with
    | none =>
      rw [hk, Option.none_bind] at hj
      exact Option.noConfusion hj
    | some s0 =>
      rw [hk, Option.some_bind] at hj
      by_cases hb : (resShape.getD j 0 == s0) = true
      · rw [if_pos hb] at hj
        exact Option.noConfusion hj
      · rw [if_neg hb] at hj
        have hd : expDims.getD j "" = d := congrArg Prod.fst (Option.some.inj hj)
        intro hmem
        exact hc ((contains_iff_mem excl _).mpr (hd ▸ hmem))

/-- C3: once the pre-kernel validations pass and the output rank is right,
a kernel result that changes the size of some dimension with a known prior
size and not listed in exclude_dims makes the call fail with
UnexpectedSizeChange naming a non-excluded dimension, while a result whose
non-excluded dimensions all keep their sizes is accepted — the sizes of
excluded dimensions are never consulted and may differ without error. -/
theorem c3_unexpected_size_change (kernel : List NDArray → NDArray)
    (inputs : List LabeledArray) (cores : List (List String))
    (ocd excl : List String)
    (h1 : checkMissing inputs cores = none)
    (h2 : checkCoreSizes inputs cores excl = none)
    (h3 : checkBroadcast inputs cores = none)
    (hr : (kernel (kernelArgs inputs cores)).rank
        = (loopFrame inputs cores).length + ocd.length) :
    ((∃ j, j < (loopFrame inputs cores ++ ocd).length ∧
        (loopFrame inputs cores ++ ocd).getD j "" ∉ excl ∧
        ∃ s0, knownSize? inputs cores
            ((loopFrame inputs cores ++ ocd).getD j "") = some s0 ∧
          (kernel (kernelArgs inputs cores)).shape.getD j 0 ≠ s0) →
      ∃ d a b, apply kernel inputs cores ocd excl
          = .error (.UnexpectedSizeChange d a b) ∧ d ∉ excl) ∧
    ((∀ j, j < (loopFrame inputs cores ++ ocd).length →
        (loopFrame inputs cores ++ ocd).getD j "" ∉ excl →
        ∀ s0, knownSize? inputs cores
            ((loopFrame inputs cores ++ ocd).getD j "") = some s0 →
          (kernel (kernelArgs inputs cores)).shape.getD j 0 = s0) →
      apply kernel inputs cores ocd excl
        = .ok ⟨loopFrame inputs cores ++ ocd,
               kernel (kernelArgs inputs cores)⟩) := by
  have hrlen : ¬ ((kernel (kernelArgs inputs cores)).rank
      ≠ (loopFrame inputs cores ++ ocd).length) := by
    simp [List.length_append, hr]
  constructor
  · rintro ⟨j, hj, hne, s0, hs0, hcon⟩
    have hcs : checkSizeChange inputs cores excl (loopFrame inputs cores ++ ocd)
        (kernel (kernelArgs inputs cores)).shape ≠ none := fun hnone =>
      hcon (((checkSizeChange_eq_none_iff inputs cores excl _ _).mp hnone)
        j hj hne s0 hs0)
    obtain ⟨t, ht⟩ := Option.ne_none_iff_exists'.mp hcs
    refine ⟨t.1, t.2.1, t.2.2, ?_, ?_⟩
    · unfold apply
      simp only [h1, h2, h3]
      rw [if_neg hrlen, ht]
    · exact checkSizeChange_some_not_excl inputs cores excl
        (loopFrame inputs cores ++ ocd)
        (kernel (kernelArgs inputs cores)).shape t.1 t.2.1 t.2.2 ht
  · intro hall
    exact (apply_ok_iff kernel inputs cores ocd excl _).mpr
      ⟨h1, h2, h3, hr,
       (checkSizeChange_eq_none_iff inputs cores excl _ _).mpr hall, rfl⟩

/-- C3 witness: a kernel that halves its length-4 core dimension `x`, with
`x` not excluded, instantiates both directions of the theorem. -/
theorem c3_unexpected_size_change_witness :
    ((∃ j, j < (loopFrame [sampleX4] [["x"]] ++ ["x"]).length ∧
        (loopFrame [sampleX4] [["x"]] ++ ["x"]).getD j "" ∉ ([] : List String) ∧
        ∃ s0, knownSize? [sampleX4] [["x"]]
            ((loopFrame [sampleX4] [["x"]] ++ ["x"]).getD j "") = some s0 ∧
          (halveKernel (kernelArgs [sampleX4] [["x"]])).shape.getD j 0 ≠ s0) →
      ∃ d a b, apply halveKernel [sampleX4] [["x"]] ["x"] []
          = .error (.UnexpectedSizeChange d a b) ∧ d ∉ ([] : List String)) ∧
    ((∀ j, j < (loopFrame [sampleX4] [["x"]] ++ ["x"]).length →
        (loopFrame [sampleX4] [["x"]] ++ ["x"]).getD j "" ∉ ([] : List String) →
        ∀ s0, knownSize? [sampleX4] [["x"]]
            ((loopFrame [sampleX4] [["x"]] ++ ["x"]).getD j "") = some s0 →
          (halveKernel (kernelArgs [sampleX4] [["x"]])).shape.getD j 0 = s0) →
      apply halveKernel [sampleX4] [["x"]] ["x"] []
        = .ok ⟨loopFrame [sampleX4] [["x"]] ++ ["x"],
               halveKernel (kernelArgs [sampleX4] [["x"]])⟩) :=
  c3_unexpected_size_change halveKernel [sampleX4] [["x"]] ["x"] []
    rfl rfl rfl (by decide)

/-- C4: on an input of shape `(lat=25, lon=53, time=2920)` with
`input_core_dims=[["time"]]`, the last-axis reduction kernel (the model of a
NumPy reduction with axis equal to -1) yields an output of shape
`(lat=25, lon=53)`, while the same reduction without declared input core
dimensions fails with the rank mismatch `UnexpectedOutputRank` naming the
three expected dimensions and the observed rank 2 — for every possible
numeric buffer. -/
theorem c4_notebook_reduction (data : List Int) :
    (∃ out, apply reduceLastKernel
        [⟨["lat", "lon", "time"], ⟨[25, 53, 2920], data⟩⟩]
        [["time"]] [] [] = .ok out ∧
      out.dims = ["lat", "lon"] ∧ out.arr.shape = [25, 53]) ∧
    apply reduceLastKernel
        [⟨["lat", "lon", "time"], ⟨[25, 53, 2920], data⟩⟩]
        [[]] [] []
      = .error (.UnexpectedOutputRank ["lat", "lon", "time"] 2) := by
  refine ⟨⟨⟨["lat", "lon"],
    reduceLastKernel (kernelArgs
      [⟨["lat", "lon", "time"], ⟨[25, 53, 2920], data⟩⟩] [["time"]])⟩,
    rfl, rfl, rfl⟩, rfl⟩

/-- C5: two inputs sharing the non-core dimension `d` with sizes 5 and 1
broadcast to frame size 5 and the call succeeds with that output extent,
while sizes 5 and 7 make the call fail with BroadcastError; in general the
engine's pairwise reconciliation maps size 1 to the other size, equal sizes
to themselves, and rejects any other pair. -/
theorem c5_loop_broadcast (d1 d2 : List Int) :
    frameSize? [⟨["d"], ⟨[5], d1⟩⟩, ⟨["d"], ⟨[1], d2⟩⟩] [[], []] "d"
      = some 5 ∧
    (∃ out, apply idKernel [⟨["d"], ⟨[5], d1⟩⟩, ⟨["d"], ⟨[1], d2⟩⟩]
        [[], []] [] [] = .ok out ∧
      out.dims = ["d"] ∧ out.arr.shape = [5]) ∧
    apply idKernel [⟨["d"], ⟨[5], d1⟩⟩, ⟨["d"], ⟨[7], d2⟩⟩] [[], []] [] []
      = .error (.BroadcastError "d") ∧
    (∀ s t : Nat, reconcile2 1 t = some t ∧ reconcile2 s s = some s ∧
      (s ≠ 1 → t ≠ 1 → t ≠ s → reconcile2 s t = none)) := by
  refine ⟨rfl, ⟨⟨["d"],
    idKernel (kernelArgs [⟨["d"], ⟨[5], d1⟩⟩, ⟨["d"], ⟨[1], d2⟩⟩] [[], []])⟩,
    rfl, rfl, rfl⟩, rfl, ?_⟩
  intro s t
  refine ⟨by simp [reconcile2], by simp [reconcile2], ?_⟩
  intro hs ht hts
  simp [reconcile2, hs, ht, hts]

/-- C5 witness: the general reconciliation rule applied to the concrete
incompatible pair of sizes 5 and 7. -/
theorem c5_loop_broadcast_witness : reconcile2 5 7 = none :=
  ((c5_loop_broadcast [] []).2.2.2 5 7).2.2 (by decide) (by decide) (by decide)

/-- C6: for every n, applying the embedded notebook kernel `g` through the
engine with `input_core_dims=[["x"], []]` and `output_core_dims=[["x"]]` to
a 1-D vector of length n and a scalar succeeds and yields an output whose
single dimension `x` still has extent n. -/
theorem c6_vector_length_preserved (n : Nat) (xs : List Int) (y : Int) :
    ∃ out, apply gKernel [⟨["x"], ⟨[n], xs⟩⟩, ⟨[], ⟨[], [y]⟩⟩]
        [["x"], []] ["x"] [] = .ok out ∧
      out.dims = ["x"] ∧ out.arr.shape = [n] := by
  refine ⟨⟨["x"],
    gKernel (kernelArgs [⟨["x"], ⟨[n], xs⟩⟩, ⟨[], ⟨[], [y]⟩⟩] [["x"], []])⟩,
    ?_, rfl, rfl⟩
  have hok := (apply_ok_iff gKernel [⟨["x"], ⟨[n], xs⟩⟩, ⟨[], ⟨[], [y]⟩⟩]
    [["x"], []] ["x"] []
    ⟨["x"],
     gKernel (kernelArgs [⟨["x"], ⟨[n], xs⟩⟩, ⟨[], ⟨[], [y]⟩⟩] [["x"], []])⟩).mpr
  apply hok
  refine ⟨rfl, ?_, rfl, rfl, ?_, rfl⟩
  · simp [checkCoreSizes, coreSizePairs, LabeledArray.dimSize]
  · simp [checkSizeChange, knownSize?, coreSize?, coreSizePairs, loopFrame,
      loopDimsOf, firstSeen, frameSize?, loopSizesFor, gKernel, kernelArgs,
      transposeTo, LabeledArray.dimSize]

/-- C7: the engine is a pure function of its arguments: invoking it twice on
identical kernel and inputs yields definitionally identical results, and any
two successful results of the same invocation agree bit for bit in their
dimension names, shape and numeric buffer.  The model is stateless, so it
cannot introduce nondeterminism. -/
theorem c7_idempotent_invocation (kernel : List NDArray → NDArray)
    (inputs : List LabeledArray) (cores : List (List String))
    (ocd excl : List String) :
    apply kernel inputs cores ocd excl = apply kernel inputs cores ocd excl ∧
    ∀ o1 o2, apply kernel inputs cores ocd excl = .ok o1 →
      apply kernel inputs cores ocd excl = .ok o2 →
      o1.dims = o2.dims ∧ o1.arr.shape = o2.arr.shape ∧
      o1.arr.data = o2.arr.data := by
  refine ⟨rfl, fun o1 o2 h1 h2 => ?_⟩
  rw [h1] at h2
  cases Except.ok.inj h2
  exact ⟨rfl, rfl, rfl⟩

/-- C7 witness: the identity kernel on the sample 2-by-3 array. -/
theorem c7_idempotent_invocation_witness :
    apply idKernel [sampleYX] [["x"]] ["x"] []
      = apply idKernel [sampleYX] [["x"]] ["x"] [] ∧
    ∀ o1 o2, apply idKernel [sampleYX] [["x"]] ["x"] [] = .ok o1 →
      apply idKernel [sampleYX] [["x"]] ["x"] [] = .ok o2 →
      o1.dims = o2.dims ∧ o1.arr.shape = o2.arr.shape ∧
      o1.arr.data = o2.arr.data :=
  c7_idempotent_invocation idKernel [sampleYX] [["x"]] ["x"] []

/-- Position lookup commutes with an injective renaming of the labels. -/
theorem indexOf_map_inj (ρ : String → String) (hρ : Function.Injective ρ)
    (l : List String) (a : String) :
    List.indexOf (ρ a) (l.map ρ) = List.indexOf a l := by
  induction l with
  | nil => rfl
  | cons b bs ih =>
    rw [List.map_cons, List.indexOf_cons, List.indexOf_cons, ih]
    have hbb : (ρ b == ρ a) = (b == a) := by
      by_cases hba : b = a
      · simp [hba]
      · have hne : ρ b ≠ ρ a := fun hc => hba (hρ hc)
        simp [hba, hne]
    rw [hbb]

/-- Axis sizes are insensitive to an injective renaming of the labels. -/
theorem dimSize_rename (ρ : String → String) (hρ : Function.Injective ρ)
    (la : LabeledArray) (d : String) :
    (renameLA ρ la).dimSize (ρ d) = la.dimSize d := by
  simp only [renameLA, LabeledArray.dimSize]
  rw [indexOf_map_inj ρ hρ]

/-- The bare transposed array handed to the kernel is identical whether or
not the labels were renamed: the kernel cannot observe dimension names. -/
theorem transposeTo_rename (ρ : String → String)
    (hρ : Function.Injective ρ) (la : LabeledArray) (order : List String) :
    transposeTo (renameLA ρ la) (order.map ρ) = transposeTo la order := by
  have hsh : (order.map ρ).map (renameLA ρ la).dimSize
      = order.map la.dimSize := by
    rw [List.map_map]
    exact List.map_congr_left (fun d _ => dimSize_rename ρ hρ la d)
  simp only [transposeTo]
  rw [NDArray.mk.injEq]
  refine ⟨hsh, ?_⟩
  rw [hsh]
  apply List.map_congr_left
  intro k _
  have hidx : (renameLA ρ la).dims.map
      (fun d => (toMulti (order.map la.dimSize) k).getD
        (List.indexOf d (order.map ρ)) 0)
      = la.dims.map (fun d => (toMulti (order.map la.dimSize) k).getD
        (List.indexOf d order) 0) := by
    simp only [renameLA]
    rw [List.map_map]
    exact List.map_congr_left (fun d _ => by
      show (toMulti (order.map la.dimSize) k).getD
        (List.indexOf (ρ d) (order.map ρ)) 0 = _
      rw [indexOf_map_inj ρ hρ])
  exact congrArg
    (fun t => (renameLA ρ la).arr.data.getD
      (fromMulti (renameLA ρ la).arr.shape t) 0) hidx

/-- The loop dimensions of one input commute with an injective renaming. -/
theorem loopDimsOf_rename (ρ : String → String)
    (hρ : Function.Injective ρ) (la : LabeledArray) (core : List String) :
    loopDimsOf (renameLA ρ la) (core.map ρ) = (loopDimsOf la core).map ρ := by
  simp only [loopDimsOf, renameLA]
  rw [List.filter_map]
  apply congrArg
  apply List.filter_congr
  intro d _
  show decide (ρ d ∉ List.map ρ core) = decide (d ∉ core)
  simp only [List.mem_map_of_injective hρ]

/-- First-seen deduplication commutes with an injective renaming. -/
theorem firstSeen_map_inj (ρ : String → String)
    (hρ : Function.Injective ρ) (l : List String) :
    firstSeen (l.map ρ) = (firstSeen l).map ρ := by
  induction l with
  | nil => rfl
  | cons d rest ih =>
    simp only [List.map_cons, firstSeen]
    rw [ih, List.filter_map]
    apply congrArg
    apply congrArg
    apply List.filter_congr
    intro x _
    simp [hρ.eq_iff]

/-- The broadcast frame commutes with an injective renaming of all labels. -/
theorem loopFrame_rename (ρ : String → String)
    (hρ : Function.Injective ρ) (inputs : List LabeledArray)
    (cores : List (List String)) :
    loopFrame (inputs.map (renameLA ρ)) (cores.map (List.map ρ))
      = (loopFrame inputs cores).map ρ := by
  unfold loopFrame
  rw [List.zip_map, List.flatMap_map]
  simp only [Prod.map_fst, Prod.map_snd]
  simp only [loopDimsOf_rename ρ hρ]
  rw [← List.map_flatMap]
  exact firstSeen_map_inj ρ hρ _

/-- C8: the kernel only ever sees bare unlabeled numeric arrays.  First,
the bare arrays handed to the kernel are invariant under any injective
renaming of every dimension label in the invocation — the kernel cannot
observe the labels, which are stripped before it runs.  Second, on success
the output's numeric buffer is exactly the kernel's bare output and its
labels are reattached by the engine from the declared dimension lists, not
taken from anything the kernel returned. -/
theorem c8_kernel_sees_bare_arrays (ρ : String → String)
    (hρ : Function.Injective ρ) (kernel : List NDArray → NDArray)
    (inputs : List LabeledArray) (cores : List (List String))
    (ocd excl : List String) (out : LabeledArray) :
    kernelArgs (inputs.map (renameLA ρ)) (cores.map (List.map ρ))
      = kernelArgs inputs cores ∧
    (apply kernel inputs cores ocd excl = .ok out →
      out.arr = kernel (kernelArgs inputs cores) ∧
      out.dims = loopFrame inputs cores ++ ocd) := by
  constructor
  · unfold kernelArgs
    rw [loopFrame_rename ρ hρ, List.zip_map, List.map_map]
    apply List.map_congr_left
    intro p _
    show transposeTo (renameLA ρ p.1)
        ((loopFrame inputs cores).map ρ ++ p.2.map ρ) = _
    rw [← List.map_append]
    exact transposeTo_rename ρ hρ p.1 _
  · intro hok
    have h := ((apply_ok_iff kernel inputs cores ocd excl out).mp hok).2.2.2.2.2
    rw [h]
    exact ⟨rfl, rfl⟩

/-- C8 witness: the identity renaming on the sample invocation. -/
theorem c8_kernel_sees_bare_arrays_witness :
    kernelArgs (([sampleYX] : List LabeledArray).map (renameLA id))
        ([["x"]].map (List.map id))
      = kernelArgs [sampleYX] [["x"]] ∧
    (apply idKernel [sampleYX] [["x"]] ["x"] []
        = .ok ⟨["y", "x"], ⟨[2, 3], [1, 2, 3, 4, 5, 6]⟩⟩ →
      (⟨["y", "x"], ⟨[2, 3], [1, 2, 3, 4, 5, 6]⟩⟩ : LabeledArray).arr
          = idKernel (kernelArgs [sampleYX] [["x"]]) ∧
      (⟨["y", "x"], ⟨[2, 3], [1, 2, 3, 4, 5, 6]⟩⟩ : LabeledArray).dims
          = loopFrame [sampleYX] [["x"]] ++ ["x"]) :=
  c8_kernel_sees_bare_arrays id Function.injective_id idKernel
    [sampleYX] [["x"]] ["x"] [] ⟨["y", "x"], ⟨[2, 3], [1, 2, 3, 4, 5, 6]⟩⟩

/-- C9: for a dimension name present in a labeled array, get_axis_num
returns a valid positional index at which the dimension sequence holds that
very name, and (under the data-model invariant that names are unique within
one array) reducing the labeled array by name coincides with reducing the
underlying raw array along any positional axis carrying that name. -/
theorem c9_get_axis_num_position (la : LabeledArray) (d : String)
    (hmem : d ∈ la.dims) (hnd : la.dims.Nodup) :
    get_axis_num la d < la.dims.length ∧
    la.dims.getD (get_axis_num la d) "" = d ∧
    ∀ j, j < la.dims.length → la.dims.getD j "" = d →
      (reduceDim la d).arr = reduceAxis la.arr j := by
  have hlt : List.indexOf d la.dims < la.dims.length :=
    List.indexOf_lt_length.mpr hmem
  have hget : la.dims.getD (List.indexOf d la.dims) "" = d := by
    rw [List.getD_eq_getElem?_getD, List.getElem?_eq_getElem hlt]
    simp [List.getElem_indexOf hlt]
  refine ⟨hlt, hget, ?_⟩
  intro j hj hjd
  have hj' : la.dims[j] = d := by
    rw [List.getD_eq_getElem?_getD, List.getElem?_eq_getElem hj] at hjd
    simpa using hjd
  have hidx : la.dims[List.indexOf d la.dims] = d := List.getElem_indexOf hlt
  have hinj := List.nodup_iff_injective_get.mp hnd
  have hfin : (⟨List.indexOf d la.dims, hlt⟩ : Fin la.dims.length)
      = ⟨j, hj⟩ := by
    apply hinj
    rw [List.get_eq_getElem, List.get_eq_getElem]
    show la.dims[List.indexOf d la.dims] = la.dims[j]
    rw [hidx, hj']
  have hij : List.indexOf d la.dims = j := congrArg Fin.val hfin
  show reduceAxis la.arr (List.indexOf d la.dims) = reduceAxis la.arr j
  rw [hij]

/-- C9 witness: dimension `x` sits at position 1 of the sample array. -/
theorem c9_get_axis_num_position_witness :
    get_axis_num sampleYX "x" < sampleYX.dims.length ∧
    sampleYX.dims.getD (get_axis_num sampleYX "x") "" = "x" ∧
    ∀ j, j < sampleYX.dims.length → sampleYX.dims.getD j "" = "x" →
      (reduceDim sampleYX "x").arr = reduceAxis sampleYX.arr j :=
  c9_get_axis_num_position sampleYX "x" (by decide) (by decide)

/-- A value already inside the signed 64-bit range is unchanged by the
wraparound. -/
theorem wrap64_eq_of_fits (a : Int) (h1 : -9223372036854775808 ≤ a)
    (h2 : a < 9223372036854775808) : wrap64 a = a := by
  unfold wrap64
  have h3 : (0 : Int) ≤ a + 9223372036854775808 := by omega
  have h4 : a + 9223372036854775808 < 18446744073709551616 := by omega
  rw [Int.emod_eq_of_lt h3 h4]
  omega

/-- C10 counterexample: at the int64 maximum the kernel's addition wraps,
so the returned element is not the unbounded sum `x[0] + y`. -/
theorem c10_g_adds_scalar_counterexample :
    (g [9223372036854775807] 1).getD 0 0
      ≠ ([9223372036854775807] : List Int).getD 0 0 + 1 := by decide

/-- C10 (amended): the embedded notebook kernel `g` returns a vector of the
same length as its vector argument whose entry at every valid index i is
the signed 64-bit wraparound of `x[i] + y`; in particular it is exactly
`x[i] + y` whenever that sum fits in the int64 range. -/
theorem c10_g_adds_scalar_wrapped (x : List Int) (y : Int) :
    (g x y).length = x.length ∧
    (∀ i, i < x.length → (g x y).getD i 0 = wrap64 (x.getD i 0 + y)) ∧
    (∀ i, i < x.length → -9223372036854775808 ≤ x.getD i 0 + y →
      x.getD i 0 + y < 9223372036854775808 →
      (g x y).getD i 0 = x.getD i 0 + y) := by
  have hel : ∀ i, i < x.length →
      (g x y).getD i 0 = wrap64 (x.getD i 0 + y) := by
    intro i hi
    simp only [g, List.getD_eq_getElem?_getD, List.getElem?_map]
    rw [List.getElem?_range hi]
    simp
  refine ⟨by simp [g], hel, ?_⟩
  intro i hi hlo hhi
  rw [hel i hi, wrap64_eq_of_fits _ hlo hhi]

/-- C10 witness: `g` on the vector (1, 2, 3) and scalar 5, where the sum
fits and equals the plain addition. -/
theorem c10_g_adds_scalar_wrapped_witness :
    (g [1, 2, 3] 5).length = ([1, 2, 3] : List Int).length ∧
    (g [1, 2, 3] 5).getD 1 0 = ([1, 2, 3] : List Int).getD 1 0 + 5 :=
  ⟨(c10_g_adds_scalar_wrapped [1, 2, 3] 5).1,
   (c10_g_adds_scalar_wrapped [1, 2, 3] 5).2.2 1 (by decide) (by decide)
     (by decide)⟩

end CoreDimEngine
